import Mathlib

/-!
Verification of the typed intermediate representation layer of the ZoKrates
compiler (`src/zokrates_core/src/typed_absy/mod.rs`): the multi-module program
model, cross-module function-symbol resolution, the statement/expression node
taxonomy with embedded static types, and the textual rendering.

Modelling conventions:
* The opaque field-element value type `T : Field` is modelled as `Nat`
  (the layer under verification never computes with field values, it only
  stores, compares and renders them).
* Rust `HashMap`s are modelled as association lists carrying the map's
  iteration order; lookup and map equality (Rust `PartialEq` for `HashMap`)
  are order-independent, while `Display` iterates the entries in order.
* A Rust `panic!`/`unwrap` failure is modelled by an explicit result
  (`Option.none`, or `SigResult.panicked` for the fuelled resolver).
* The unbounded recursion of `TypedFunctionSymbol::signature` is modelled
  with an explicit fuel parameter; `SigResult.outOfFuel` marks fuel
  exhaustion and is distinct from a panic.
-/

/-- Modelled from the spec: the static type of the IR, `crate::types::Type`
(the `types` module is outside this layer): one of `Boolean`, `FieldElement`,
`FieldElementArray(n)` with the fixed length `n` baked into the type. -/
inductive Ty where
  | Boolean : Ty
  | FieldElement : Ty
  | FieldElementArray : Nat → Ty
deriving DecidableEq, Repr

/-- Modelled from the spec: `crate::types::Signature` — ordered input types
plus ordered output types. -/
structure Signature where
  inputs : List Ty
  outputs : List Ty
deriving DecidableEq, Repr

/-- Modelled from the spec: `crate::types::FunctionKey` — a function name
together with its signature, used as the symbol-table lookup key. -/
structure FunctionKey where
  id : String
  signature : Signature
deriving DecidableEq, Repr

/-- Modelled from the spec: `Variable` (the `variable` submodule is outside
this layer) — a typed, named binding: identifier plus type. -/
structure Variable where
  id : String
  ty : Ty
deriving DecidableEq, Repr

/-- Modelled from the spec: `Variable::get_type` returns the binding's type. -/
def Variable.get_type (v : Variable) : Ty := v.ty

/-- Modelled from the spec: `Parameter` (the `parameter` submodule is outside
this layer) — a variable used as a function argument, with a privacy flag. -/
structure Parameter where
  var : Variable
  «private» : Bool
deriving DecidableEq, Repr

/-- Modelled from the spec: an import declaration, out of scope for this
layer; only its rendered text matters here. -/
structure Import where
  text : String
deriving DecidableEq, Repr

/-- Modelled from the spec: an already-lowered (flat) imported primitive
function, out of scope for this layer; only its rendered text matters here. -/
structure FlatFunction where
  text : String
deriving DecidableEq, Repr

/-- Source: `type Identifier = String` -/
abbrev Identifier := String

/-- Source: `pub type TypedModuleId = String` -/
abbrev TypedModuleId := String

/-- Association-list lookup modelling `HashMap::get`. -/
def mapGet {κ β : Type} [DecidableEq κ] : List (κ × β) → κ → Option β
  | [], _ => none
  | (k2, v) :: rest, k => if k2 = k then some v else mapGet rest k

/-- Rust `PartialEq` for `HashMap`: equal length and every entry of the first
map is present, with the same value, in the second. The iteration order our
association lists carry is irrelevant to this equality. -/
def mapEqv {κ β : Type} [DecidableEq κ] (m1 m2 : List (κ × β)) : Prop :=
  m1.length = m2.length ∧ ∀ p ∈ m1, mapGet m2 p.1 = some p.2

theorem mapGet_mem {κ β : Type} [DecidableEq κ] :
    ∀ {l : List (κ × β)} {k : κ} {v : β}, mapGet l k = some v → (k, v) ∈ l := by
  intro l
  induction l with
  | nil => intro k v h; simp [mapGet] at h
  | cons p rest ih =>
    intro k v h
    obtain ⟨k2, v2⟩ := p
    by_cases hk : k2 = k
    · subst hk
      simp [mapGet] at h
      subst h
      exact List.mem_cons_self _ _
    · simp [mapGet, hk] at h
      exact List.mem_cons_of_mem _ (ih h)

mutual

/-- Source: `enum FieldElementExpression<T: Field>`; the field type `T` is modelled
as `Nat`. -/
inductive FieldElementExpression where
  | Number : Nat → FieldElementExpression
  | Identifier : Identifier → FieldElementExpression
  | Add : FieldElementExpression → FieldElementExpression → FieldElementExpression
  | Sub : FieldElementExpression → FieldElementExpression → FieldElementExpression
  | Mult : FieldElementExpression → FieldElementExpression → FieldElementExpression
  | Div : FieldElementExpression → FieldElementExpression → FieldElementExpression
  | Pow : FieldElementExpression → FieldElementExpression → FieldElementExpression
  | IfElse : BooleanExpression → FieldElementExpression → FieldElementExpression →
      FieldElementExpression
  | FunctionCall : FunctionKey → List TypedExpression → FieldElementExpression
  | Select : FieldElementArrayExpression → FieldElementExpression → FieldElementExpression

/-- Source: `enum BooleanExpression<T: Field>` -/
inductive BooleanExpression where
  | Identifier : Identifier → BooleanExpression
  | Value : Bool → BooleanExpression
  | Lt : FieldElementExpression → FieldElementExpression → BooleanExpression
  | Le : FieldElementExpression → FieldElementExpression → BooleanExpression
  | Eq : FieldElementExpression → FieldElementExpression → BooleanExpression
  | Ge : FieldElementExpression → FieldElementExpression → BooleanExpression
  | Gt : FieldElementExpression → FieldElementExpression → BooleanExpression
  | Or : BooleanExpression → BooleanExpression → BooleanExpression
  | And : BooleanExpression → BooleanExpression → BooleanExpression
  | Not : BooleanExpression → BooleanExpression

/-- Source: `enum FieldElementArrayExpression<T: Field>` — the array size is stored
in the variants (except `IfElse`). -/
inductive FieldElementArrayExpression where
  | Identifier : Nat → Identifier → FieldElementArrayExpression
  | Value : Nat → List FieldElementExpression → FieldElementArrayExpression
  | FunctionCall : Nat → FunctionKey → List TypedExpression → FieldElementArrayExpression
  | IfElse : BooleanExpression → FieldElementArrayExpression → FieldElementArrayExpression →
      FieldElementArrayExpression

/-- Source: `enum TypedExpression<T: Field>` — tagged union over the three
expression kinds. -/
inductive TypedExpression where
  | Boolean : BooleanExpression → TypedExpression
  | FieldElement : FieldElementExpression → TypedExpression
  | FieldElementArray : FieldElementArrayExpression → TypedExpression

end

/-- Source: `enum TypedAssignee<T: Field>` -/
inductive TypedAssignee where
  | Identifier : Variable → TypedAssignee
  | ArrayElement : TypedAssignee → FieldElementExpression → TypedAssignee

/-- Source: `enum TypedExpressionList<T: Field>` -/
inductive TypedExpressionList where
  | FunctionCall : FunctionKey → List TypedExpression → List Ty → TypedExpressionList

/-- Source: `enum TypedStatement<T: Field>`; the field-typed loop bounds of `For`
are modelled as `Nat`. -/
inductive TypedStatement where
  | Return : List TypedExpression → TypedStatement
  | Definition : TypedAssignee → TypedExpression → TypedStatement
  | Declaration : Variable → TypedStatement
  | Condition : TypedExpression → TypedExpression → TypedStatement
  | For : Variable → Nat → Nat → List TypedStatement → TypedStatement
  | MultipleDefinition : List Variable → TypedExpressionList → TypedStatement

/-- Source: `struct TypedFunction<T: Field>` -/
structure TypedFunction where
  id : Identifier
  arguments : List Parameter
  statements : List TypedStatement
  signature : Signature

/-- Source: `enum TypedFunctionSymbol<T: Field>`: a local definition (`Here`) or a
cross-module alias (`There`). -/
inductive TypedFunctionSymbol where
  | Here : TypedFunction → TypedFunctionSymbol
  | There : FunctionKey → TypedModuleId → TypedFunctionSymbol

/-- Source: `pub type TypedFunctionSymbols<T> = HashMap<FunctionKey, TypedFunctionSymbol<T>>`,
as an association list carrying the map's iteration order. -/
abbrev TypedFunctionSymbols := List (FunctionKey × TypedFunctionSymbol)

/-- Source: `struct TypedModule<T: Field>` -/
structure TypedModule where
  functions : TypedFunctionSymbols
  imports : List Import
  imported_functions : List FlatFunction

/-- Source: `pub type TypedModules<T> = HashMap<TypedModuleId, TypedModule<T>>`,
as an association list carrying the map's iteration order. -/
abbrev TypedModules := List (TypedModuleId × TypedModule)

/-- Source: `struct TypedProgram<T: Field>` -/
structure TypedProgram where
  modules : TypedModules
  main : TypedModule

/-- The result of resolving a function symbol's signature.
`panicked` models the `unwrap` panics of the source on a missing module or
missing key; `outOfFuel` marks exhaustion of the explicit fuel that bounds
the source's unbounded recursion. -/
inductive SigResult where
  | ok : Signature → SigResult
  | panicked : SigResult
  | outOfFuel : SigResult
deriving DecidableEq, Repr

/-- Source: `TypedFunctionSymbol::signature` (mod.rs lines 71-84): a `Here` symbol
returns its function's signature; a `There(key, module_id)` symbol looks up
`module_id` in the module map and `key` in that module's symbol table (each
`unwrap` panicking on absence) and recurses on the symbol found. One unit of
fuel is spent per `There` indirection. -/
def TypedFunctionSymbol.signature (modules : TypedModules) :
    Nat → TypedFunctionSymbol → SigResult
  | _, .Here f => .ok f.signature
  | 0, .There _ _ => .outOfFuel
  | fuel + 1, .There key module_id =>
    match mapGet modules module_id with
    | none => .panicked
    | some m =>
      match mapGet m.functions key with
      | none => .panicked
      | some sym => TypedFunctionSymbol.signature modules fuel sym

/-- Modelled from the spec (§4.1), for comparison with the source's
`TypedFunctionSymbol.signature`: "look up the key in the module's symbol
table; if the symbol is `Here`, return its function's signature directly; if
`There(key', module_id')`, recursively resolve `key'` in `module_id'`'s
table", the absence of the module or of the key being fatal. One unit of
fuel is spent per resolution step. -/
def resolveSpec (modules : TypedModules) :
    Nat → TypedModuleId → FunctionKey → SigResult
  | 0, _, _ => .outOfFuel
  | fuel + 1, module_id, key =>
    match mapGet modules module_id with
    | none => .panicked
    | some m =>
      match mapGet m.functions key with
      | none => .panicked
      | some (.Here f) => .ok f.signature
      | some (.There key2 module_id2) => resolveSpec modules fuel module_id2 key2

/-- Source: `impl Typed for TypedAssignee` (mod.rs lines 208-221): an identifier
assignee has its variable's type; an array-element assignee requires its
base to have an array type (otherwise `panic!("array element has to take
array")`, modelled as `none`) and then has type `FieldElement`. -/
def TypedAssignee.get_type : TypedAssignee → Option Ty
  | .Identifier v => some v.get_type
  | .ArrayElement a _ =>
    match a.get_type with
    | some (.FieldElementArray _) => some .FieldElement
    | _ => none

/-- Source: `FieldElementArrayExpression::size` (mod.rs lines 483-492): the stored
size for `Identifier`, `Value` and `FunctionCall`; for `IfElse`, the size of
the consequence. -/
def FieldElementArrayExpression.size : FieldElementArrayExpression → Nat
  | .Identifier s _ => s
  | .Value s _ => s
  | .FunctionCall s _ _ => s
  | .IfElse _ consequence _ => consequence.size

/-- Source: `impl Typed for FieldElementArrayExpression` (mod.rs lines 377-386). -/
def FieldElementArrayExpression.get_type : FieldElementArrayExpression → Ty
  | .Identifier n _ => .FieldElementArray n
  | .Value n _ => .FieldElementArray n
  | .FunctionCall n _ _ => .FieldElementArray n
  | .IfElse _ consequence _ => consequence.get_type

/-- Source: `impl Typed for TypedExpression` (mod.rs lines 367-375). -/
def TypedExpression.get_type : TypedExpression → Ty
  | .Boolean _ => .Boolean
  | .FieldElement _ => .FieldElement
  | .FieldElementArray e => e.get_type

/-- Source: `impl MultiTyped for TypedExpressionList` (mod.rs lines 397-403): the
types vector embedded in the `FunctionCall` variant. -/
def TypedExpressionList.get_types : TypedExpressionList → List Ty
  | .FunctionCall _ _ types => types

/-- Modelled from the spec: the textual rendering of a `Type` (the Display
impl lives in the out-of-scope `types` module); spec §8 scenario 1 renders
the `FieldElement` type as the text "FieldElement". -/
def Ty.display : Ty → String
  | .Boolean => "Boolean"
  | .FieldElement => "FieldElement"
  | .FieldElementArray n => "FieldElementArray(" ++ toString n ++ ")"

/-- Join a list of strings with a comma-space separator, as the source's
repeated pattern of writing each item followed by ", " when it is not last. -/
def commaSep : List String → String
  | [] => ""
  | [s] => s
  | s :: rest => s ++ ", " ++ commaSep rest

/-- Join a list of strings with newlines (`Vec::join("\n")`). -/
def joinLines : List String → String
  | [] => ""
  | [s] => s
  | s :: rest => s ++ "\n" ++ joinLines rest

/-- Modelled from the spec: the textual rendering of a `Signature` (Display
impl in the out-of-scope `types` module): input types and output types. -/
def Signature.display (s : Signature) : String :=
  "(" ++ commaSep (s.inputs.map Ty.display) ++ ") -> (" ++
    commaSep (s.outputs.map Ty.display) ++ ")"

/-- Modelled from the spec: a variable renders as its identifier. -/
def Variable.display (v : Variable) : String := v.id

/-- Modelled from the spec: a parameter renders as its variable's
identifier (spec §8 scenario 1: `def f(x) -> (FieldElement)`). -/
def Parameter.display (p : Parameter) : String := p.var.display

/-- Modelled from the spec: an import declaration renders as its text. -/
def Import.display (i : Import) : String := i.text

/-- Modelled from the spec: a flat imported function renders as its text. -/
def FlatFunction.display (ff : FlatFunction) : String := ff.text

mutual

/-- Source: `impl Display for FieldElementExpression` (mod.rs lines 494-524):
`Add`, `Sub`, `Mult` and `Div` render parenthesized around their infix
operator; `Pow` renders as the two operands around `**` with no
parentheses; `IfElse` as `if c then t else e fi`; calls as `id(args)`;
`Select` as `array[index]`. -/
def FieldElementExpression.display : FieldElementExpression → String
  | .Number i => toString i
  | .Identifier var => var
  | .Add lhs rhs =>
    "(" ++ FieldElementExpression.display lhs ++ " + " ++
      FieldElementExpression.display rhs ++ ")"
  | .Sub lhs rhs =>
    "(" ++ FieldElementExpression.display lhs ++ " - " ++
      FieldElementExpression.display rhs ++ ")"
  | .Mult lhs rhs =>
    "(" ++ FieldElementExpression.display lhs ++ " * " ++
      FieldElementExpression.display rhs ++ ")"
  | .Div lhs rhs =>
    "(" ++ FieldElementExpression.display lhs ++ " / " ++
      FieldElementExpression.display rhs ++ ")"
  | .Pow lhs rhs =>
    FieldElementExpression.display lhs ++ "**" ++ FieldElementExpression.display rhs
  | .IfElse condition consequent alternative =>
    "if " ++ BooleanExpression.display condition ++ " then " ++
      FieldElementExpression.display consequent ++ " else " ++
      FieldElementExpression.display alternative ++ " fi"
  | .FunctionCall k p => k.id ++ "(" ++ displayTypedExprList p ++ ")"
  | .Select id index =>
    FieldElementArrayExpression.display id ++ "[" ++
      FieldElementExpression.display index ++ "]"

/-- Source: `impl Display for BooleanExpression` (mod.rs lines 526-541). -/
def BooleanExpression.display : BooleanExpression → String
  | .Identifier var => var
  | .Lt lhs rhs =>
    FieldElementExpression.display lhs ++ " < " ++ FieldElementExpression.display rhs
  | .Le lhs rhs =>
    FieldElementExpression.display lhs ++ " <= " ++ FieldElementExpression.display rhs
  | .Eq lhs rhs =>
    FieldElementExpression.display lhs ++ " == " ++ FieldElementExpression.display rhs
  | .Ge lhs rhs =>
    FieldElementExpression.display lhs ++ " >= " ++ FieldElementExpression.display rhs
  | .Gt lhs rhs =>
    FieldElementExpression.display lhs ++ " > " ++ FieldElementExpression.display rhs
  | .Or lhs rhs =>
    BooleanExpression.display lhs ++ " || " ++ BooleanExpression.display rhs
  | .And lhs rhs =>
    BooleanExpression.display lhs ++ " && " ++ BooleanExpression.display rhs
  | .Not exp => "!" ++ BooleanExpression.display exp
  | .Value b => toString b

/-- Source: `impl Display for FieldElementArrayExpression` (mod.rs lines
543-575). -/
def FieldElementArrayExpression.display : FieldElementArrayExpression → String
  | .Identifier _ var => var
  | .Value _ values => "[" ++ displayFieldExprList values ++ "]"
  | .FunctionCall _ key p => key.id ++ "(" ++ displayTypedExprList p ++ ")"
  | .IfElse condition consequent alternative =>
    "if " ++ BooleanExpression.display condition ++ " then " ++
      FieldElementArrayExpression.display consequent ++ " else " ++
      FieldElementArrayExpression.display alternative ++ " fi"

/-- Source: `impl Display for TypedExpression` (mod.rs lines 347-355). -/
def TypedExpression.display : TypedExpression → String
  | .Boolean e => BooleanExpression.display e
  | .FieldElement e => FieldElementExpression.display e
  | .FieldElementArray e => FieldElementArrayExpression.display e

/-- Comma-separated rendering of an argument list, as the source's loops
writing each parameter followed by ", " when not last. -/
def displayTypedExprList : List TypedExpression → String
  | [] => ""
  | [e] => TypedExpression.display e
  | e :: rest => TypedExpression.display e ++ ", " ++ displayTypedExprList rest

/-- Comma-separated rendering of the elements of an array literal
(`values.iter().map(to_string).join(", ")`). -/
def displayFieldExprList : List FieldElementExpression → String
  | [] => ""
  | [e] => FieldElementExpression.display e
  | e :: rest => FieldElementExpression.display e ++ ", " ++ displayFieldExprList rest

end

/-- Source: `impl Debug for TypedAssignee` (mod.rs lines 223-230), to which
`impl Display for TypedAssignee` (lines 232-236) delegates. -/
def TypedAssignee.display : TypedAssignee → String
  | .Identifier s => s.id
  | .ArrayElement a e =>
    TypedAssignee.display a ++ "[" ++ FieldElementExpression.display e ++ "]"

/-- Source: `impl Display for TypedExpressionList` (mod.rs lines 635-650). -/
def TypedExpressionList.display : TypedExpressionList → String
  | .FunctionCall key p _ => key.id ++ "(" ++ displayTypedExprList p ++ ")"

mutual

/-- Source: `impl Display for TypedStatement` (mod.rs lines 282-316). -/
def TypedStatement.display : TypedStatement → String
  | .Return exprs => "return " ++ displayTypedExprList exprs
  | .Declaration var => var.display
  | .Definition lhs rhs => lhs.display ++ " = " ++ rhs.display
  | .Condition lhs rhs => lhs.display ++ " == " ++ rhs.display
  | .For var start stop list =>
    "for " ++ var.display ++ " in " ++ toString start ++ ".." ++ toString stop ++
      " do\n" ++ displayForBody list ++ "\tendfor"
  | .MultipleDefinition ids rhs =>
    commaSep (ids.map Variable.display) ++ " = " ++ rhs.display

/-- The body lines of a `For` statement: each inner statement on its own
line, indented by two tabs. -/
def displayForBody : List TypedStatement → String
  | [] => ""
  | s :: rest => "\t\t" ++ TypedStatement.display s ++ "\n" ++ displayForBody rest

end

/-- Source: `impl Display for TypedFunction` (mod.rs lines 160-184). -/
def TypedFunction.display (f : TypedFunction) : String :=
  "def " ++ f.id ++ "(" ++ commaSep (f.arguments.map Parameter.display) ++
    ") -> (" ++ commaSep (f.signature.outputs.map Ty.display) ++ "):\n" ++
    joinLines (f.statements.map (fun x => "\t" ++ x.display))

/-- Source: `impl Display for TypedFunctionSymbol` (mod.rs lines 86-97). -/
def TypedFunctionSymbol.display : TypedFunctionSymbol → String
  | .Here f => f.display
  | .There key module_id =>
    "import " ++ key.id ++ " from " ++ module_id ++ " // with signature " ++
      key.signature.display

/-- Source: `impl Display for TypedModule` (mod.rs lines 99-122): imports,
then the flat imported functions, then the symbol-table values in the map's
iteration order, joined with newlines. -/
def TypedModule.display (m : TypedModule) : String :=
  joinLines (m.imports.map Import.display ++
    m.imported_functions.map FlatFunction.display ++
    m.functions.map (fun x => x.2.display))

/-- The separator line `"-".repeat(100)`. -/
def dashes : String := String.mk (List.replicate 100 ('-'))

/-- One `| id: |` banner block per module of the map, in iteration order
(the loop of `impl Display for TypedProgram`). -/
def displayModules : TypedModules → String
  | [] => ""
  | (module_id, m) :: rest =>
    "| " ++ module_id ++ ": |\n" ++ dashes ++ "\n" ++ m.display ++ "\n" ++
      dashes ++ "\n" ++ "\n" ++ displayModules rest

/-- Source: `impl Display for TypedProgram` (mod.rs lines 39-55): the main
module under a `| main: |` banner, then every entry of the module map in
the map's iteration order. -/
def TypedProgram.display (p : TypedProgram) : String :=
  "| main: |\n" ++ dashes ++ "\n" ++ p.main.display ++ "\n" ++ dashes ++
    "\n" ++ "\n" ++ displayModules p.modules

/-- Raising the fuel does not change a resolution result other than
`outOfFuel`: the fuel is an artifact of the embedding, not of the source. -/
theorem signature_fuel_mono (modules : TypedModules) :
    ∀ fuel sym, TypedFunctionSymbol.signature modules fuel sym ≠ .outOfFuel →
      ∀ fuel2, fuel ≤ fuel2 →
        TypedFunctionSymbol.signature modules fuel2 sym =
          TypedFunctionSymbol.signature modules fuel sym := by
  intro fuel
  induction fuel with
  | zero =>
    intro sym h fuel2 _
    cases sym with
    | Here f => simp [TypedFunctionSymbol.signature]
    | There key module_id => exact absurd rfl h
  | succ n ih =>
    intro sym h fuel2 hle
    cases sym with
    | Here f => simp [TypedFunctionSymbol.signature]
    | There key module_id =>
      obtain ⟨m2, rfl⟩ : ∃ m2, fuel2 = m2 + 1 := ⟨fuel2 - 1, by omega⟩
      simp only [TypedFunctionSymbol.signature] at h ⊢
      cases hmod : mapGet modules module_id with
      | none => simp [hmod]
      | some m =>
        simp only [hmod] at h ⊢
        cases hfn : mapGet m.functions key with
        | none => simp [hfn]
        | some sym2 =>
          simp only [hfn] at h ⊢
          exact ih sym2 h m2 (by omega)

/-- The source's resolver and the spec's resolution algorithm agree on every
`There` symbol, fuel level by fuel level. -/
theorem signature_eq_resolveSpec (modules : TypedModules) :
    ∀ fuel key module_id,
      TypedFunctionSymbol.signature modules (fuel + 1) (.There key module_id) =
        resolveSpec modules (fuel + 1) module_id key := by
  intro fuel
  induction fuel with
  | zero =>
    intro key module_id
    cases hmod : mapGet modules module_id with
    | none => simp [TypedFunctionSymbol.signature, resolveSpec, hmod]
    | some m =>
      cases hfn : mapGet m.functions key with
      | none => simp [TypedFunctionSymbol.signature, resolveSpec, hmod, hfn]
      | some sym =>
        cases sym with
        | Here f => simp [TypedFunctionSymbol.signature, resolveSpec, hmod, hfn]
        | There key2 module_id2 =>
          simp [TypedFunctionSymbol.signature, resolveSpec, hmod, hfn]
  | succ n ih =>
    intro key module_id
    cases hmod : mapGet modules module_id with
    | none => simp [TypedFunctionSymbol.signature, resolveSpec, hmod]
    | some m =>
      cases hfn : mapGet m.functions key with
      | none => simp [TypedFunctionSymbol.signature, resolveSpec, hmod, hfn]
      | some sym =>
        cases sym with
        | Here f => simp [TypedFunctionSymbol.signature, resolveSpec, hmod, hfn]
        | There key2 module_id2 =>
          have step1 :
              TypedFunctionSymbol.signature modules (n + 1 + 1)
                (.There key module_id) =
                TypedFunctionSymbol.signature modules (n + 1)
                  (.There key2 module_id2) := by
            simp [TypedFunctionSymbol.signature, hmod, hfn]
          have step2 :
              resolveSpec modules (n + 1 + 1) module_id key =
                resolveSpec modules (n + 1) module_id2 key2 := by
            simp [resolveSpec, hmod, hfn]
          rw [step1, step2]
          exact ih key2 module_id2

/-- C1: `TypedFunctionSymbol::signature` follows the spec's resolution
algorithm: a `Here(f)` symbol yields `f`'s signature directly, and a
`There(key, module_id)` symbol yields exactly what the spec's recursive
resolution of `key` in the table of the module named `module_id` yields,
at every fuel level. -/
theorem signature_follows_spec_resolution (modules : TypedModules) (fuel : Nat)
    (f : TypedFunction) (key : FunctionKey) (module_id : TypedModuleId) :
    TypedFunctionSymbol.signature modules fuel (.Here f) = .ok f.signature ∧
    TypedFunctionSymbol.signature modules (fuel + 1) (.There key module_id) =
      resolveSpec modules (fuel + 1) module_id key := by
  constructor
  · simp [TypedFunctionSymbol.signature]
  · exact signature_eq_resolveSpec modules fuel key module_id

/-- C5: resolving a `There` symbol whose module is absent from the module
map, or whose key is absent from that module's symbol table, panics (the
source's `unwrap`), which is fatal and distinct from any recoverable
result. -/
theorem there_missing_lookup_panics (modules : TypedModules)
    (key : FunctionKey) (module_id : TypedModuleId) :
    (mapGet modules module_id = none →
      ∀ fuel, TypedFunctionSymbol.signature modules (fuel + 1) (.There key module_id) =
        .panicked) ∧
    (∀ m, mapGet modules module_id = some m → mapGet m.functions key = none →
      ∀ fuel, TypedFunctionSymbol.signature modules (fuel + 1) (.There key module_id) =
        .panicked) := by
  constructor
  · intro hmod fuel
    simp [TypedFunctionSymbol.signature, hmod]
  · intro m hmod hfn fuel
    simp [TypedFunctionSymbol.signature, hmod, hfn]

/-- Witness for C5: with an empty module map the resolution of
`There("g", "lib")` panics, and with a module map holding an empty `lib`
module it panics as well. -/
theorem there_missing_lookup_panics_witness :
    TypedFunctionSymbol.signature [] 1 (.There ⟨"g", ⟨[], []⟩⟩ ("lib")) =
      .panicked ∧
    TypedFunctionSymbol.signature [(("lib"), (⟨[], [], []⟩ : TypedModule))] 1
        (.There ⟨"g", ⟨[], []⟩⟩ ("lib")) = .panicked :=
  ⟨(there_missing_lookup_panics [] ⟨"g", ⟨[], []⟩⟩ ("lib")).1 rfl 0,
   (there_missing_lookup_panics [(("lib"), (⟨[], [], []⟩ : TypedModule))]
      ⟨"g", ⟨[], []⟩⟩ ("lib")).2 ⟨[], [], []⟩ rfl rfl 0⟩

/-- The `There` edges contributed by one module's symbol table: one edge
from `(module_id, key)` to the referenced `(module_id', key')` per `There`
entry. -/
def moduleThereEdges (module_id : TypedModuleId) :
    TypedFunctionSymbols →
      List ((TypedModuleId × FunctionKey) × (TypedModuleId × FunctionKey))
  | [] => []
  | (_, .Here _) :: rest => moduleThereEdges module_id rest
  | (key, .There key2 module_id2) :: rest =>
    ((module_id, key), (module_id2, key2)) :: moduleThereEdges module_id rest

/-- The `There` reference graph of a module map, as its list of edges. -/
def thereEdges :
    TypedModules →
      List ((TypedModuleId × FunctionKey) × (TypedModuleId × FunctionKey))
  | [] => []
  | (module_id, m) :: rest =>
    moduleThereEdges module_id m.functions ++ thereEdges rest

/-- Acyclicity of the `There` reference graph, witnessed by a rank function
that strictly decreases along every edge (for a finite graph this is
equivalent to the absence of cycles). -/
def RankedAcyclic (modules : TypedModules)
    (rank : TypedModuleId → FunctionKey → Nat) : Prop :=
  ∀ e ∈ thereEdges modules, rank e.2.1 e.2.2 < rank e.1.1 e.1.2

theorem mem_moduleThereEdges {module_id : TypedModuleId}
    {key key2 : FunctionKey} {module_id2 : TypedModuleId} :
    ∀ {fns : TypedFunctionSymbols}, (key, .There key2 module_id2) ∈ fns →
      ((module_id, key), (module_id2, key2)) ∈ moduleThereEdges module_id fns := by
  intro fns
  induction fns with
  | nil => intro h; cases h
  | cons p rest ih =>
    intro h
    cases h with
    | head => exact List.mem_cons_self _ _
    | tail _ htail =>
      obtain ⟨k, sym⟩ := p
      cases sym with
      | Here f => exact ih htail
      | There k2 m2 => exact List.mem_cons_of_mem _ (ih htail)

theorem mem_thereEdges {modules : TypedModules} {module_id : TypedModuleId}
    {m : TypedModule} {key key2 : FunctionKey} {module_id2 : TypedModuleId} :
    (module_id, m) ∈ modules → (key, .There key2 module_id2) ∈ m.functions →
      ((module_id, key), (module_id2, key2)) ∈ thereEdges modules := by
  intro hmod hfn
  induction modules with
  | nil => cases hmod
  | cons p rest ih =>
    cases hmod with
    | head =>
      simp only [thereEdges]
      exact List.mem_append_left _ (mem_moduleThereEdges hfn)
    | tail _ htail =>
      obtain ⟨mid, mm⟩ := p
      simp only [thereEdges]
      exact List.mem_append_right _ (ih htail)

/-- With fuel exceeding the rank of the starting point, resolution over an
acyclic `There` graph never runs out of fuel. -/
theorem signature_terminates_aux (modules : TypedModules)
    (rank : TypedModuleId → FunctionKey → Nat)
    (hacyc : RankedAcyclic modules rank) :
    ∀ bound module_id key, rank module_id key < bound →
      TypedFunctionSymbol.signature modules (rank module_id key + 1)
        (.There key module_id) ≠ .outOfFuel := by
  intro bound
  induction bound with
  | zero => intro module_id key h; omega
  | succ b ih =>
    intro module_id key _
    cases hmod : mapGet modules module_id with
    | none => simp [TypedFunctionSymbol.signature, hmod]
    | some m =>
      cases hfn : mapGet m.functions key with
      | none => simp [TypedFunctionSymbol.signature, hmod, hfn]
      | some sym =>
        cases sym with
        | Here f => simp [TypedFunctionSymbol.signature, hmod, hfn]
        | There key2 module_id2 =>
          have hedge : ((module_id, key), (module_id2, key2)) ∈ thereEdges modules :=
            mem_thereEdges (mapGet_mem hmod) (mapGet_mem hfn)
          have hrank : rank module_id2 key2 < rank module_id key := hacyc _ hedge
          have hdone : TypedFunctionSymbol.signature modules (rank module_id2 key2 + 1)
              (.There key2 module_id2) ≠ .outOfFuel := ih module_id2 key2 (by omega)
          have hmono := signature_fuel_mono modules (rank module_id2 key2 + 1)
            (.There key2 module_id2) hdone (rank module_id key) (by omega)
          have step : TypedFunctionSymbol.signature modules (rank module_id key + 1)
              (.There key module_id) =
              TypedFunctionSymbol.signature modules (rank module_id key)
                (.There key2 module_id2) := by
            simp [TypedFunctionSymbol.signature, hmod, hfn]
          rw [step, hmono]
          exact hdone

/-- C8: under acyclicity of the `There` reference graph (witnessed by a
rank function decreasing along every edge), resolving a `FunctionKey`'s
signature from a given module terminates — fuel one larger than the rank of
the starting point is never exhausted — and resolution is idempotent: any
two successful resolutions of the same key from the same starting module
yield the same signature. -/
theorem signature_resolution_terminates_and_idempotent
    (modules : TypedModules) (rank : TypedModuleId → FunctionKey → Nat)
    (key : FunctionKey) (module_id : TypedModuleId)
    (hacyc : RankedAcyclic modules rank) :
    TypedFunctionSymbol.signature modules (rank module_id key + 1)
      (.There key module_id) ≠ .outOfFuel ∧
    (∀ fuel1 fuel2 s1 s2,
      TypedFunctionSymbol.signature modules fuel1 (.There key module_id) = .ok s1 →
      TypedFunctionSymbol.signature modules fuel2 (.There key module_id) = .ok s2 →
      s1 = s2) := by
  constructor
  · exact signature_terminates_aux modules rank hacyc (rank module_id key + 1)
      module_id key (by omega)
  · intro fuel1 fuel2 s1 s2 h1 h2
    have hne1 : TypedFunctionSymbol.signature modules fuel1 (.There key module_id) ≠
        .outOfFuel := by rw [h1]; intro hcon; cases hcon
    have hne2 : TypedFunctionSymbol.signature modules fuel2 (.There key module_id) ≠
        .outOfFuel := by rw [h2]; intro hcon; cases hcon
    have e1 := signature_fuel_mono modules fuel1 (.There key module_id) hne1
      (max fuel1 fuel2) (Nat.le_max_left _ _)
    have e2 := signature_fuel_mono modules fuel2 (.There key module_id) hne2
      (max fuel1 fuel2) (Nat.le_max_right _ _)
    rw [h1] at e1
    rw [h2] at e2
    rw [e1] at e2
    cases e2
    rfl

/-- A concrete two-module program: `main` re-exports `g` from `lib`. -/
def gFunction : TypedFunction :=
  ⟨"g", [], [], ⟨[], [Ty.FieldElement]⟩⟩

/-- The key of `g`. -/
def gKey : FunctionKey := ⟨"g", ⟨[], [Ty.FieldElement]⟩⟩

/-- The `lib` module, holding `g` locally. -/
def libModule : TypedModule := ⟨[(gKey, .Here gFunction)], [], []⟩

/-- The `main` module, aliasing `g` into `lib`. -/
def mainModule : TypedModule := ⟨[(gKey, .There gKey ("lib"))], [], []⟩

/-- The two-module map. -/
def twoModules : TypedModules := [(("main"), mainModule), (("lib"), libModule)]

/-- A rank function decreasing along the single `There` edge of
`twoModules`. -/
def twoModulesRank (module_id : TypedModuleId) (_ : FunctionKey) : Nat :=
  if module_id = "main" then 1 else 0

/-- Witness for C8: on the concrete acyclic two-module program, resolving
`g` from `main` does not exhaust its fuel bound, and any two successful
resolutions agree. -/
theorem signature_resolution_terminates_witness :
    TypedFunctionSymbol.signature twoModules (twoModulesRank ("main") gKey + 1)
      (.There gKey ("main")) ≠ .outOfFuel ∧
    (∀ fuel1 fuel2 s1 s2,
      TypedFunctionSymbol.signature twoModules fuel1 (.There gKey ("main")) = .ok s1 →
      TypedFunctionSymbol.signature twoModules fuel2 (.There gKey ("main")) = .ok s2 →
      s1 = s2) :=
  signature_resolution_terminates_and_idempotent twoModules twoModulesRank gKey
    ("main")
    (by unfold RankedAcyclic; decide)

/-- Helper: on every array expression, `get_type` is `FieldElementArray`
of `size`. -/
theorem get_type_size_aux :
    ∀ e : FieldElementArrayExpression, e.get_type = Ty.FieldElementArray e.size
  | .Identifier _ _ => rfl
  | .Value _ _ => rfl
  | .FunctionCall _ _ _ => rfl
  | .IfElse _ consequence _ => by
    have ih := get_type_size_aux consequence
    simp [FieldElementArrayExpression.get_type, FieldElementArrayExpression.size, ih]

/-- C2: on every `FieldElementArrayExpression` (all four variants),
`get_type` returns `FieldElementArray` of the expression's `size`; both are
pure structural computations. -/
theorem array_get_type_eq_size (e : FieldElementArrayExpression) :
    e.get_type = Ty.FieldElementArray e.size :=
  get_type_size_aux e

/-- C3: the type and size of an array `IfElse` are computed from the
consequent branch only — they coincide with the consequent's, do not depend
on the alternative at all, and in particular a consequent of size 3 with an
alternative of size 5 yields `FieldElementArray(3)`. -/
theorem array_ifelse_uses_consequent (c : BooleanExpression)
    (consequent alternative alternative2 : FieldElementArrayExpression) :
    (FieldElementArrayExpression.IfElse c consequent alternative).get_type =
      consequent.get_type ∧
    (FieldElementArrayExpression.IfElse c consequent alternative).size =
      consequent.size ∧
    (FieldElementArrayExpression.IfElse c consequent alternative).get_type =
      (FieldElementArrayExpression.IfElse c consequent alternative2).get_type ∧
    (consequent.size = 3 → alternative.size = 5 →
      (FieldElementArrayExpression.IfElse c consequent alternative).get_type =
        Ty.FieldElementArray 3) := by
  refine ⟨rfl, rfl, rfl, ?_⟩
  intro h3 _
  have := get_type_size_aux consequent
  simp [FieldElementArrayExpression.get_type, this, h3]

/-- Witness for C3: a concrete conditional whose consequent has size 3 and
whose alternative has size 5 gets type `FieldElementArray(3)`. -/
theorem array_ifelse_uses_consequent_witness :
    (FieldElementArrayExpression.IfElse (.Value true)
        (.Identifier 3 ("a")) (.Identifier 5 ("b"))).get_type =
      Ty.FieldElementArray 3 :=
  (array_ifelse_uses_consequent (.Value true) (.Identifier 3 ("a"))
    (.Identifier 5 ("b")) (.Identifier 5 ("b"))).2.2.2 rfl rfl

/-- C4: querying the type of an `ArrayElement` assignee panics (modelled as
`none`) whenever the base's type is not a `FieldElementArray`, and returns
`FieldElement` whenever the base's type is `FieldElementArray(n)`. -/
theorem assignee_array_element_type (base : TypedAssignee)
    (index : FieldElementExpression) :
    (∀ t, base.get_type = some t → (∀ n, t ≠ Ty.FieldElementArray n) →
      (TypedAssignee.ArrayElement base index).get_type = none) ∧
    (∀ n, base.get_type = some (Ty.FieldElementArray n) →
      (TypedAssignee.ArrayElement base index).get_type = some Ty.FieldElement) := by
  constructor
  · intro t hbase hnot
    simp only [TypedAssignee.get_type]
    rw [hbase]
    cases t with
    | Boolean => rfl
    | FieldElement => rfl
    | FieldElementArray n => exact absurd rfl (hnot n)
  · intro n hbase
    simp only [TypedAssignee.get_type]
    rw [hbase]

/-- Witness for C4: indexing a `FieldElement`-typed identifier assignee
panics; indexing a `FieldElementArray(3)`-typed identifier assignee has type
`FieldElement`. -/
theorem assignee_array_element_type_witness :
    (TypedAssignee.ArrayElement (.Identifier ⟨"x", Ty.FieldElement⟩)
      (.Number 0)).get_type = none ∧
    (TypedAssignee.ArrayElement (.Identifier ⟨"a", Ty.FieldElementArray 3⟩)
      (.Number 0)).get_type = some Ty.FieldElement :=
  ⟨(assignee_array_element_type (.Identifier ⟨"x", Ty.FieldElement⟩)
      (.Number 0)).1 Ty.FieldElement rfl (fun _ h => Ty.noConfusion h),
   (assignee_array_element_type (.Identifier ⟨"a", Ty.FieldElementArray 3⟩)
      (.Number 0)).2 3 rfl⟩

/-- C10: a nested `ArrayElement(ArrayElement(base, i), j)` assignee always
panics on `get_type`, because the type of an inner `ArrayElement` is either
a panic or `FieldElement`, never an array type. -/
theorem nested_array_element_always_panics (base : TypedAssignee)
    (i j : FieldElementExpression) :
    (TypedAssignee.ArrayElement (.ArrayElement base i) j).get_type = none := by
  simp only [TypedAssignee.get_type]
  cases hbase : base.get_type with
  | none => rfl
  | some t =>
    cases t with
    | Boolean => rfl
    | FieldElement => rfl
    | FieldElementArray n => rfl

/-- The arity invariant claimed for `MultipleDefinition` statements: the
number of destructured variables equals the number of declared output types
of the call. -/
def multipleDefinitionArityOk : TypedStatement → Prop
  | .MultipleDefinition vars call => vars.length = call.get_types.length
  | _ => True

/-- Counterexample to C9: a `MultipleDefinition` with zero variables but a
call declaring one output type is freely constructible, so the arity
invariant does not hold of every constructible instance. -/
theorem multiple_definition_arity_counterexample :
    ¬ multipleDefinitionArityOk
      (TypedStatement.MultipleDefinition []
        (.FunctionCall ⟨"f", ⟨[], [Ty.FieldElement]⟩⟩ [] [Ty.FieldElement])) := by
  simp [multipleDefinitionArityOk, TypedExpressionList.get_types]

/-- C9 (amended): `get_types` returns exactly the types vector embedded in
the `FunctionCall` variant; the arity invariant is a producer obligation,
not a property enforced on every constructible instance. -/
theorem expression_list_get_types (key : FunctionKey)
    (arguments : List TypedExpression) (types : List Ty) :
    (TypedExpressionList.FunctionCall key arguments types).get_types = types :=
  rfl

/-- Counterexample to C7: the rendering of a `Pow` node is not wrapped in
parentheses — `2**3` renders as the five characters `2**3` whose first
character is not an opening parenthesis. -/
theorem pow_display_not_parenthesized :
    FieldElementExpression.display (.Pow (.Number 2) (.Number 3)) = "2**3" ∧
    ("2**3").take 1 ≠ "(" := by
  constructor
  · simp only [FieldElementExpression.display]
    decide
  · decide

/-- C7 (amended): `Add`, `Sub`, `Mult` and `Div` render fully parenthesized
around their infix operator; `Pow` renders without parentheses. -/
theorem binary_arith_display_parenthesization
    (lhs rhs : FieldElementExpression) :
    FieldElementExpression.display (.Add lhs rhs) =
      "(" ++ FieldElementExpression.display lhs ++ " + " ++
        FieldElementExpression.display rhs ++ ")" ∧
    FieldElementExpression.display (.Sub lhs rhs) =
      "(" ++ FieldElementExpression.display lhs ++ " - " ++
        FieldElementExpression.display rhs ++ ")" ∧
    FieldElementExpression.display (.Mult lhs rhs) =
      "(" ++ FieldElementExpression.display lhs ++ " * " ++
        FieldElementExpression.display rhs ++ ")" ∧
    FieldElementExpression.display (.Div lhs rhs) =
      "(" ++ FieldElementExpression.display lhs ++ " / " ++
        FieldElementExpression.display rhs ++ ")" ∧
    FieldElementExpression.display (.Pow lhs rhs) =
      FieldElementExpression.display lhs ++ "**" ++
        FieldElementExpression.display rhs := by
  refine ⟨?_, ?_, ?_, ?_, ?_⟩ <;> simp [FieldElementExpression.display]

/-- A module with an empty symbol table and no imports. -/
def emptyModule : TypedModule := ⟨[], [], []⟩

/-- A program whose module map iterates `a` before `b`. -/
def orderAB : TypedProgram :=
  ⟨[(("a"), emptyModule), (("b"), emptyModule)], emptyModule⟩

/-- The same program as a map, with the iteration order reversed. -/
def orderBA : TypedProgram :=
  ⟨[(("b"), emptyModule), (("a"), emptyModule)], emptyModule⟩

set_option maxRecDepth 40000 in
/-- Counterexample to C6: `orderAB` and `orderBA` are equal programs under
the source's `PartialEq` (same main module, equal module maps), yet they
render to different text, because `Display` iterates the module `HashMap`
in its iteration order, which is not determined by map equality (and varies
across runs of the source under the standard library's seeded hashing). -/
theorem program_display_order_counterexample :
    mapEqv orderAB.modules orderBA.modules ∧ orderAB.main = orderBA.main ∧
    orderAB.display ≠ orderBA.display := by
  refine ⟨⟨rfl, ?_⟩, rfl, ?_⟩
  · intro p hp
    cases hp with
    | head => rfl
    | tail _ hp2 =>
      cases hp2 with
      | head => rfl
      | tail _ hp3 => cases hp3
  · decide

/-- C6 (amended): rendering is a pure function of the program
representation — two programs with the same module list (entries and
iteration order) and the same main module render to byte-identical text;
byte-identity is not guaranteed under mere map equality of `modules`, per
the counterexample. -/
theorem program_display_deterministic (p1 p2 : TypedProgram)
    (hmods : p1.modules = p2.modules) (hmain : p1.main = p2.main) :
    p1.display = p2.display := by
  have : p1 = p2 := by
    cases p1
    cases p2
    simp only at hmods hmain
    rw [hmods, hmain]
  rw [this]

/-- Witness for C6 (amended): the concrete program `orderAB` rendered twice
yields identical text. -/
theorem program_display_deterministic_witness :
    orderAB.display = orderAB.display :=
  program_display_deterministic orderAB orderAB rfl rfl
